import Mathlib

/-!
Verification development for the mr-Observer library (src/unnamed/part_001,
the final array-aware `Observer` class; earlier revisions are in
src/src/index.js and src/unnamed/part_000).

The JavaScript source is shallowly embedded: JSON data is the inductive
`JVal` (JS `undefined` is modelled as `Option.none` in lookup results and
event arguments, never as a stored value — the library's documented domain
is "any complexity JSON"); the observer instance state (`data`,
`_pathCache`, `_eventsCache`) is the structure `Ob`; every mutation method
is a pure function from `Ob` to `OpOut` (new state, the ordered list of
`emit` calls made on the underlying EventEmitter, and whether a TypeError
escaped).  Scalar numbers are `ℚ` (claims only involve decimal literals);
reference identity, string character indexing, the `length` property of
arrays, non-canonical string properties stored on arrays, and sparse-array
holes are outside the modelled fragment — no claim depends on them, and
each spot where the fragment is narrowed is commented at the definition.
-/

namespace MrObs

/-- JS primitive values (`null`, booleans, numbers, strings). `undefined`
is deliberately not a constructor: it is modelled as `Option.none` where
the source can observe it. -/
inductive JPrim where
  | jnull : JPrim
  | jbool : Bool → JPrim
  | jnum : ℚ → JPrim
  | jstr : String → JPrim
deriving DecidableEq, Repr

/-- A JSON-like JS value: primitive, array, or plain object (fields kept
in insertion order, as JS `for..in` enumerates non-integer keys). -/
inductive JVal where
  | prim : JPrim → JVal
  | arr : List JVal → JVal
  | obj : List (String × JVal) → JVal

mutual

/-- Structural decidable equality for `JVal` (the nested inductive defeats
the automatic derive handler on this toolchain). -/
def JVal.decEq : (a b : JVal) → Decidable (a = b)
  | .prim p, .prim q =>
    if h : p = q then isTrue (by rw [h])
    else isFalse (by intro hc; cases hc; exact h rfl)
  | .prim _, .arr _ => isFalse (by intro hc; cases hc)
  | .prim _, .obj _ => isFalse (by intro hc; cases hc)
  | .arr _, .prim _ => isFalse (by intro hc; cases hc)
  | .arr xs, .arr ys =>
    match JVal.decEqList xs ys with
    | isTrue h => isTrue (by rw [h])
    | isFalse h => isFalse (by intro hc; cases hc; exact h rfl)
  | .arr _, .obj _ => isFalse (by intro hc; cases hc)
  | .obj _, .prim _ => isFalse (by intro hc; cases hc)
  | .obj _, .arr _ => isFalse (by intro hc; cases hc)
  | .obj fs, .obj gs =>
    match JVal.decEqFields fs gs with
    | isTrue h => isTrue (by rw [h])
    | isFalse h => isFalse (by intro hc; cases hc; exact h rfl)

/-- Decidable equality for lists of `JVal`. -/
def JVal.decEqList : (xs ys : List JVal) → Decidable (xs = ys)
  | [], [] => isTrue rfl
  | [], _ :: _ => isFalse (by intro hc; cases hc)
  | _ :: _, [] => isFalse (by intro hc; cases hc)
  | x :: xs, y :: ys =>
    match JVal.decEq x y with
    | isFalse h => isFalse (by intro hc; cases hc; exact h rfl)
    | isTrue h1 =>
      match JVal.decEqList xs ys with
      | isTrue h2 => isTrue (by rw [h1, h2])
      | isFalse h => isFalse (by intro hc; cases hc; exact h rfl)

/-- Decidable equality for field lists of `JVal` objects. -/
def JVal.decEqFields : (fs gs : List (String × JVal)) → Decidable (fs = gs)
  | [], [] => isTrue rfl
  | [], _ :: _ => isFalse (by intro hc; cases hc)
  | _ :: _, [] => isFalse (by intro hc; cases hc)
  | (k, v) :: fs, (k', v') :: gs =>
    if hk : k = k' then
      match JVal.decEq v v' with
      | isFalse h => isFalse (by intro hc; cases hc; exact h rfl)
      | isTrue hv =>
        match JVal.decEqFields fs gs with
        | isTrue ht => isTrue (by rw [hk, hv, ht])
        | isFalse h => isFalse (by intro hc; cases hc; exact h rfl)
    else isFalse (by intro hc; cases hc; exact hk rfl)

end

instance : DecidableEq JVal := JVal.decEq

/-- A resolved path segment as produced by `_makePathParts`: either a raw
string key or a number (the source stores JS numbers produced by
`parseInt`, which may be negative). -/
inductive Seg where
  | str : String → Seg
  | num : Int → Seg
deriving DecidableEq, Repr

/-- The raw `path` argument as passed around the source: a string, an
integer, or `null`.  These are exactly the shapes the public API accepts
and the ones the internal code passes to `_makePathParts` and
`_emitWildcard` (JS `Map` keys distinguish the number `5` from the string
`"5"`, which this type preserves). -/
inductive JPath where
  | str : String → JPath
  | int : Int → JPath
  | null : JPath
deriving DecidableEq, Repr

/-- The five change kinds. -/
inductive EvKind where
  | eset | eunset | einsert | emove | eremove
deriving DecidableEq, Repr

/-- An event name as passed to `EventEmitter.emit`: either the bare kind
string (`"set"`, …) for the catch-all emit, or a qualified
`"<pattern>:<kind>"` string built during the wildcard-trie scan.  The
string rendering is injective, so dispatch-by-string-equality in the
external emitter coincides with equality of this type. -/
inductive EvName where
  | bare : EvKind → EvName
  | qual : String → EvKind → EvName
deriving DecidableEq, Repr

/-- One `emit` call on the underlying EventEmitter.  `rawPath` is the
`path` argument that was handed to `_emitWildcard` (kept as trace
information to state theorems), `path` is the resolved `pathParts` array
actually passed to subscribers, and `a1 a2 a3` are the remaining emit
arguments (`none` = `undefined`). -/
structure EmitCall where
  name : EvName
  rawPath : JPath
  path : List Seg
  a1 : Option JVal
  a2 : Option JVal
  a3 : Option JVal
deriving DecidableEq

/-- The wildcard event cache `_eventsCache`: a trie node with its `end`
counter (`ends`), its subscription counter (`counter`), and children
keyed by path segment.  The root node is a plain `Map` in the source and
its (absent) `end`/`counter` read as falsy, modelled by `0`. -/
inductive Trie where
  | mk : Nat → Nat → List (Seg × Trie) → Trie

/-- Value of the longest leading run of decimal digits, accumulator style
(the tail after the digit run is ignored, as in JS `parseInt`). -/
def digitsAcc : List Char → Nat → Nat
  | [], acc => acc
  | c :: cs, acc => if c.isDigit then digitsAcc cs (acc * 10 + (c.toNat - 48)) else acc

/-- `none` when the first character is not a digit, otherwise the value of
the longest digit prefix. -/
def digitsPrefix : List Char → Option Nat
  | [] => none
  | c :: cs => if c.isDigit then some (digitsAcc (c :: cs) 0) else none

/-- JS `parseInt(s, 10)`: skip leading whitespace, optional sign, longest
digit prefix; `none` models `NaN`.  (`Number.isInteger(parseInt(s, 10))`
is true exactly when the result is not `NaN`.) -/
def jsParseInt (s : String) : Option Int :=
  match s.data.dropWhile (fun c => c.isWhitespace) with
  | '-' :: rest => (digitsPrefix rest).map (fun n => -(n : Int))
  | '+' :: rest => (digitsPrefix rest).map (fun n => (n : Int))
  | cs => (digitsPrefix cs).map (fun n => (n : Int))

/-- The canonical-array-index test JS applies when an array is indexed by
a string: `arr["5"]` hits element 5, while `"05"`, `"-1"`, `"x"` are
ordinary (absent) properties.  A string is canonical exactly when it is a
nonempty digit run with no leading zero (except `"0"` itself), i.e. when
it round-trips through `toString`. -/
def canonIdx (s : String) : Option Nat :=
  match s.data with
  | [] => none
  | c :: cs =>
    if c = '0' then (if cs = [] then some 0 else none)
    else if c.isDigit ∧ cs.all Char.isDigit then some (digitsAcc (c :: cs) 0)
    else none

/-- `typeof v === 'object' && v instanceof Object`: true for arrays and
plain objects, false for every primitive (including `null`, which fails
the `instanceof` half). -/
def isObj : JVal → Bool
  | .arr _ => true
  | .obj _ => true
  | .prim _ => false

/-- The same object test applied to a possibly-`undefined` value. -/
def isObjOpt : Option JVal → Bool
  | some v => isObj v
  | none => false

/-- First binding of a key in an object's field list. -/
def lookupField : List (String × JVal) → String → Option JVal
  | [], _ => none
  | (k, v) :: rest, key => if k = key then some v else lookupField rest key

/-- JS property read `v[seg]` on a non-`null` receiver (`none` =
`undefined`).  Narrowed fragment: reads of `length` and other non-index
properties of arrays, and character indexing of strings, all yield
`undefined` here; no claim touches them. -/
def jsAccess : JVal → Seg → Option JVal
  | .prim _, _ => none
  | .arr xs, .num i => if i < 0 then none else xs.get? i.toNat
  | .arr xs, .str s =>
    match canonIdx s with
    | some n => xs.get? n
    | none => none
  | .obj fs, .str s => lookupField fs s
  | .obj fs, .num i => lookupField fs (toString i)

/-- JS property read including the host behaviour on a `null` receiver:
`null[seg]` throws a TypeError, modelled as `.error`. -/
def jsIndexE (v : JVal) (s : Seg) : Except Unit (Option JVal) :=
  if v = .prim .jnull then .error () else .ok (jsAccess v s)

/-- Replace the first binding of `key` (or append a new one), as JS
property assignment does on plain objects. -/
def putField : List (String × JVal) → String → JVal → List (String × JVal)
  | [], key, v => [(key, v)]
  | (k, w) :: rest, key, v =>
    if k = key then (k, v) :: rest else (k, w) :: putField rest key v

/-- Array element write `xs[i] = v`.  Writing past the end lengthens the
array; real JS leaves holes (which read back `undefined`) where this model
stores `null` — no claim reaches an out-of-range write. -/
def listWrite : List JVal → Nat → JVal → List JVal
  | xs, i, v =>
    if i < xs.length then xs.set i v
    else xs ++ List.replicate (i - xs.length) (.prim .jnull) ++ [v]

/-- JS property assignment `node[seg] = v` on the modelled receivers.
Narrowed fragment: a non-canonical string key or negative index on an
array would create a plain property on the array object, which the model
drops; assignment on a primitive receiver is discarded (as JS does after
boxing). -/
def setChild : JVal → Seg → JVal → JVal
  | .obj fs, .str s, v => .obj (putField fs s v)
  | .obj fs, .num i, v => .obj (putField fs (toString i) v)
  | .arr xs, .num i, v => if i < 0 then .arr xs else .arr (listWrite xs i.toNat v)
  | .arr xs, .str s, v =>
    match canonIdx s with
    | some n => .arr (listWrite xs n v)
    | none => .arr xs
  | node, _, _ => node

/-- Remove the first binding of `key`. -/
def removeField : List (String × JVal) → String → List (String × JVal)
  | [], _ => []
  | (k, w) :: rest, key => if k = key then rest else (k, w) :: removeField rest key

/-- JS `delete node[seg]` as used by `unset` on a non-array parent (the
array parent takes the `splice` branch instead). -/
def delChild : JVal → Seg → JVal
  | .obj fs, .str s => .obj (removeField fs s)
  | .obj fs, .num i => .obj (removeField fs (toString i))
  | node, _ => node

/-- String rendering of a resolved segment (used by `join('.')` and the
trie-scan pattern strings; JS stringifies numeric segments decimally). -/
def segRender : Seg → String
  | .str s => s
  | .num i => toString i

/-- `parts.slice(0, -1).join('.')` on resolved segments. -/
def segsJoin (l : List Seg) : String :=
  String.intercalate "." (l.map segRender)

/-- A resolved segment as a JS value (event argument position). -/
def segToJVal : Seg → JVal
  | .str s => .prim (.jstr s)
  | .num i => .prim (.jnum i)

/-- The string JS produces when a path value is concatenated into a
string (`'' + path`): numbers print decimally and `null` prints "null". -/
def jpString : JPath → String
  | .str s => s
  | .int i => toString i
  | .null => "null"

/-- JS truthiness of a path value (`''`, `0` and `null` are falsy). -/
def jpTruthy : JPath → Bool
  | .str s => s ≠ ""
  | .int i => i ≠ 0
  | .null => false

/-- `path + (path ? '.' : '') + key`, the event-path construction used
throughout the diff engine. -/
def pathPlusKey (p : JPath) (k : String) : JPath :=
  .str (jpString p ++ (if jpTruthy p then "." else "") ++ k)

/-- A path value moved into data position by the `set`/`patch` one-argument
shift (`data = path`). -/
def jpToJVal : JPath → JVal
  | .str s => .prim (.jstr s)
  | .int i => .prim (.jnum i)
  | .null => .prim .jnull

/-- `Number.isInteger(path) ? path.toString() : path` as performed inside
`_makePathParts`, `insert`, `move` and `remove`. -/
def jpConvert : JPath → JPath
  | .int i => .str (toString i)
  | p => p

/-- JS number for a `Nat` index in event-argument position. -/
def jidx (n : Nat) : JVal := .prim (.jnum n)

/-- Observer instance state: `this.data`, the `_pathCache` map (insertion
order preserved, keys compared like JS `Map` keys) and the `_eventsCache`
trie.  The subscriber lists of the inherited EventEmitter are external
collaborators; the emitted calls are returned as traces instead. -/
structure Ob where
  data : JVal
  pathCache : List (JPath × List Seg)
  events : Trie

/-- `new Observer(data)` — `data || { }`, with fresh caches.  (A falsy
initial value yields the empty object; claims always construct from an
object or array.) -/
def obInit (v : JVal) : Ob := ⟨v, [], .mk 0 0 []⟩

/-- `path.split('.')` over the character list (structural so that it is
kernel-computable; agrees with JS `String.prototype.split` with a
one-character separator on a nonempty string). -/
def splitDotChars : List Char → List String
  | [] => [""]
  | c :: rest =>
    let r := splitDotChars rest
    if c = '.' then "" :: r
    else (String.mk (c :: (r.headD "").data)) :: r.tail

/-- `s.split('.')`. -/
def splitDot (s : String) : List String :=
  splitDotChars s.data

/-- `_pathCache.get(key)`. -/
def cacheGet : List (JPath × List Seg) → JPath → Option (List Seg)
  | [], _ => none
  | (k, v) :: rest, key => if k = key then some v else cacheGet rest key

/-- `_pathCache.set(key, parts)` — JS `Map.set` keeps the position of an
overwritten key and appends a fresh one. -/
def cacheSet : List (JPath × List Seg) → JPath → List Seg → List (JPath × List Seg)
  | [], key, v => [(key, v)]
  | (k, w) :: rest, key, v =>
    if k = key then (k, v) :: rest else (k, w) :: cacheSet rest key v

/-- The resolution loop of `_makePathParts`: walk the split segments
against the current data, turning a segment into a number when the node
at that position is an array and `parseInt` succeeds; stop (leaving the
remaining segments as raw strings) as soon as the walked node comes out
`null` or `undefined`. -/
def resolveParts : JVal → List String → List Seg
  | _, [] => []
  | node, s :: rest =>
    let seg : Seg :=
      match node with
      | .arr _ =>
        match jsParseInt s with
        | some i => .num i
        | none => .str s
      | _ => .str s
    match jsAccess node seg with
    | some next =>
      if next = .prim .jnull then seg :: rest.map Seg.str
      else seg :: resolveParts next rest
    | none => seg :: rest.map Seg.str

/-- `_makePathParts(path)`: cache lookup under the *raw* key (so the
number `5` never hits an entry stored under `"5"`), else split, resolve
against the current data shape, and store — under the original key for
`null`/`''`, under the stringified key otherwise (the source converts
integer paths to strings before `split` and caches under the converted
value, possibly overwriting an entry made from the string form). -/
def obMakePathParts (ob : Ob) (p : JPath) : List Seg × Ob :=
  match cacheGet ob.pathCache p with
  | some parts => (parts, ob)
  | none =>
    if p = .null ∨ p = .str "" then
      ([], ⟨ob.data, cacheSet ob.pathCache p [], ob.events⟩)
    else
      let parts := resolveParts ob.data (splitDot (jpString p))
      (parts, ⟨ob.data, cacheSet ob.pathCache (.str (jpString p)) parts, ob.events⟩)

/-- The navigation loop shared by the mutation methods: successive
`node = node[parts[i]]` reads with an `undefined` check after each one
(`.ok none` = the method returns silently; `.error` = a `null` receiver
threw a TypeError before the check could run). -/
def walkSegsE : JVal → List Seg → Except Unit (Option JVal)
  | node, [] => .ok (some node)
  | node, s :: rest =>
    match jsIndexE node s with
    | .error _ => .error ()
    | .ok none => .ok none
    | .ok (some next) => walkSegsE next rest

/-- `parts[parts.length - 1]`: on an empty `parts` array this is
`parts[-1]`, i.e. `undefined`, and the subsequent `node[undefined]` read
looks up the literal property name "undefined" — faithfully preserved
because `unset('')` depends on it. -/
def lastSegOf (parts : List Seg) : Seg :=
  (parts.getLast?).getD (.str "undefined")

/-- Rebuild the tree after an in-place mutation of the node reached by
`segs` (the source mutates through the alias obtained by the walk; on a
tree-shaped value that equals this functional path update). -/
def modifyAt : JVal → List Seg → (JVal → JVal) → JVal
  | v, [], f => f v
  | v, s :: rest, f =>
    match jsAccess v s with
    | some child => setChild v s (modifyAt child rest f)
    | none => v

/-- `node.get(part)` on a trie node's child map. -/
def findChild : List (Seg × Trie) → Seg → Option Trie
  | [], _ => none
  | (k, t) :: rest, s => if k = s then some t else findChild rest s

/-- `node.set(part, map)` on a trie node's child map. -/
def putChild : List (Seg × Trie) → Seg → Trie → List (Seg × Trie)
  | [], s, t => [(s, t)]
  | (k, u) :: rest, s, t =>
    if k = s then (k, t) :: rest else (k, u) :: putChild rest s t

/-- The subscription walk of `on`: the path segments are processed from
the last to the first (this function receives them already reversed),
creating or fetching a child per segment, incrementing its `counter`, and
incrementing `end` on the node reached by the first segment (`i === 0`,
i.e. when no reversed segments remain). -/
def trieAddRev : Trie → List Seg → Trie
  | t, [] => t
  | .mk ends cnt ch, p :: rest =>
    let sub :=
      match (findChild ch p).getD (.mk 0 0 []) with
      | .mk e2 c2 ch2 =>
        Trie.mk (if rest.isEmpty then e2 + 1 else e2) (c2 + 1) ch2
    .mk ends cnt (putChild ch p (trieAddRev sub rest))

/-- `pathParts[pathParts.length - depth]` (`undefined` once the scan depth
exceeds the path length). -/
def segAt (parts : List Seg) (depth : Nat) : Option Seg :=
  if depth ≤ parts.length then parts.get? (parts.length - depth) else none

/-- `(path ? part + '.' + path : part)`: patterns are reconstructed from
the last segment outwards. -/
def trieJoin (part : String) (path : String) : String :=
  if path = "" then part else part ++ "." ++ path

mutual

/-- `_emitWildcardDeeper`: scan the events trie against the mutated path
from its last segment backwards, collecting (in emission order) the
pattern string of every subscription endpoint whose matched depth equals
the full path length; both the exact child (`node.get(part)`) and the `*`
child are followed — the child lookup is inlined as `emitScanChild` so
the recursion is structural on the trie. -/
def emitDeeper : Trie → String → List Seg → Nat → List String
  | .mk ends _ ch, path, parts, depth =>
    (if ends ≠ 0 ∧ depth - 1 = parts.length then [path] else [])
    ++ (match segAt parts depth with
        | some pa => emitScanChild ch pa path parts depth
        | none => [])
    ++ emitScanChild ch (.str "*") path parts depth

/-- `node.get(key)` fused with the recursive scan call (first matching
child, as in a JS `Map`; `trieJoin (segRender key) path` prefixes the
segment — or the literal `*` — onto the pattern string). -/
def emitScanChild : List (Seg × Trie) → Seg → String → List Seg → Nat → List String
  | [], _, _, _, _ => []
  | (k, t) :: rest, key, path, parts, depth =>
    if k = key then emitDeeper t (trieJoin (segRender key) path) parts (depth + 1)
    else emitScanChild rest key path parts depth

end

/-- Suffix test over character lists (kernel-computable `endsWith`). -/
def strEnds (s : String) (sfx : String) : Bool :=
  sfx.data.reverse.isPrefixOf s.data.reverse

/-- The suffix strip `name.replace(/:(set|unset|insert|move|remove)$/, '')`
performed by `on` before indexing the pattern (the five suffixes are
mutually exclusive, so the test order is immaterial). -/
def stripKind (name : String) : String :=
  if strEnds name ":set" then name.dropRight 4
  else if strEnds name ":unset" then name.dropRight 6
  else if strEnds name ":insert" then name.dropRight 7
  else if strEnds name ":move" then name.dropRight 5
  else if strEnds name ":remove" then name.dropRight 7
  else name

/-- `Observer.on(name, …)` as far as the observer's own state goes: strip
the kind suffix, resolve (and cache) the pattern path, and index it in
the events trie.  The callback registration itself lives in the external
EventEmitter; dispatch is modelled through the `EmitCall` traces. -/
def obOn (ob : Ob) (name : String) : Ob :=
  let r := obMakePathParts ob (.str (stripKind name))
  ⟨r.2.data, r.2.pathCache, trieAddRev r.2.events r.1.reverse⟩

/-- One qualified emit produced by the trie scan. -/
def qualCall (pat : String) (k : EvKind) (raw : JPath) (parts : List Seg)
    (a1 a2 a3 : Option JVal) : EmitCall :=
  ⟨.qual pat k, raw, parts, a1, a2, a3⟩

/-- `_emitWildcard(path, type, value, old, to)`: resolve the event path
(thereby possibly growing the path cache), emit the qualified events
found by the trie scan, then the unqualified catch-all `emit(type, …)`.
Of the observer's state it reads `data` and `_eventsCache` and writes
only `_pathCache`, so the updated cache is what it returns. -/
def emitWildcard (ob : Ob) (p : JPath) (k : EvKind) (a1 a2 a3 : Option JVal) :
    List (JPath × List Seg) × List EmitCall :=
  let r := obMakePathParts ob p
  ((r.2.pathCache),
    (emitDeeper r.2.events "" r.1 1).map (fun s => qualCall s k p r.1 a1 a2 a3)
      ++ [⟨.bare k, p, r.1, a1, a2, a3⟩])

/-- Result of one public mutation call: the new observer state, the
ordered list of `emit` calls it made, and whether a TypeError escaped
(in which case state and trace cover what happened before the throw). -/
structure OpOut where
  ob : Ob
  evs : List EmitCall
  thrown : Bool

/-- `isObject ? container[key] : undefined` — the pairing lookup both
diff routines apply to the "other side" value (`for..in` keys are
strings, so array lookups go through the canonical-index coercion). -/
def chOld (other : Option JVal) (key : String) : Option JVal :=
  match other with
  | some o => if isObj o then jsAccess o (.str key) else none
  | none => none

mutual

/-- `_checkSet(path, data, old)`: recurse into every own key of `data`
(children first), then emit one `set` for `(path, data, old)` unless the
values are identical (`!==` is structural here: exact for primitive pairs
and for mixed pairs, and irrelevant for object-object pairs, where the
second conjunct is already false) or both sides are objects.  Like
`_emitWildcard`, it writes only `_pathCache`; `ob.data`/`ob.events` are
read-only inputs, so the updated cache is returned. -/
def checkSet (ob : Ob) (p : JPath) (dat : JVal) (old : Option JVal) :
    List (JPath × List Seg) × List EmitCall :=
  let r1 : List (JPath × List Seg) × List EmitCall :=
    match dat with
    | .arr xs => checkSetElems ob p xs 0 old
    | .obj fs => checkSetFields ob p fs old
    | .prim _ => (ob.pathCache, [])
  if some dat ≠ old ∧ ((isObj dat ∧ ¬ isObjOpt old) ∨ (¬ isObj dat ∧ isObjOpt old)
      ∨ (¬ isObj dat ∧ ¬ isObjOpt old)) then
    let r2 := emitWildcard ⟨ob.data, r1.1, ob.events⟩ p .eset (some dat) old none
    (r2.1, r1.2 ++ r2.2)
  else r1

/-- The `for (let key in data)` loop of `_checkSet` over an array's
index keys, in ascending order. -/
def checkSetElems (ob : Ob) (p : JPath) (xs : List JVal) (i : Nat)
    (old : Option JVal) : List (JPath × List Seg) × List EmitCall :=
  match xs with
  | [] => (ob.pathCache, [])
  | x :: rest =>
    let r1 := checkSet ob (pathPlusKey p (toString i)) x (chOld old (toString i))
    let r2 := checkSetElems ⟨ob.data, r1.1, ob.events⟩ p rest (i + 1) old
    (r2.1, r1.2 ++ r2.2)

/-- The `for (let key in data)` loop of `_checkSet` over an object's own
keys, in insertion order. -/
def checkSetFields (ob : Ob) (p : JPath) (fs : List (String × JVal))
    (old : Option JVal) : List (JPath × List Seg) × List EmitCall :=
  match fs with
  | [] => (ob.pathCache, [])
  | (k, v) :: rest =>
    let r1 := checkSet ob (pathPlusKey p k) v (chOld old k)
    let r2 := checkSetFields ⟨ob.data, r1.1, ob.events⟩ p rest old
    (r2.1, r1.2 ++ r2.2)

end

mutual

/-- `_checkUnset(path, old, data)` for a defined `old` (the recursion
always passes defined values; the `undefined` case is the dispatcher
`checkUnset` below): recurse into every own key of `old` (children
first), then emit one `unset` for `(path, old)` exactly when the paired
new value is `undefined`.  Writes only `_pathCache`. -/
def checkUnsetV (ob : Ob) (p : JPath) (old : JVal) (dat : Option JVal) :
    List (JPath × List Seg) × List EmitCall :=
  let r1 : List (JPath × List Seg) × List EmitCall :=
    match old with
    | .arr xs => checkUnsetElems ob p xs 0 dat
    | .obj fs => checkUnsetFields ob p fs dat
    | .prim _ => (ob.pathCache, [])
  if dat = none then
    let r2 := emitWildcard ⟨ob.data, r1.1, ob.events⟩ p .eunset (some old) none none
    (r2.1, r1.2 ++ r2.2)
  else r1

/-- The `for (let key in old)` loop of `_checkUnset` over an array's
index keys. -/
def checkUnsetElems (ob : Ob) (p : JPath) (xs : List JVal) (i : Nat)
    (dat : Option JVal) : List (JPath × List Seg) × List EmitCall :=
  match xs with
  | [] => (ob.pathCache, [])
  | x :: rest =>
    let r1 := checkUnsetV ob (pathPlusKey p (toString i)) x (chOld dat (toString i))
    let r2 := checkUnsetElems ⟨ob.data, r1.1, ob.events⟩ p rest (i + 1) dat
    (r2.1, r1.2 ++ r2.2)

/-- The `for (let key in old)` loop of `_checkUnset` over an object's own
keys. -/
def checkUnsetFields (ob : Ob) (p : JPath) (fs : List (String × JVal))
    (dat : Option JVal) : List (JPath × List Seg) × List EmitCall :=
  match fs with
  | [] => (ob.pathCache, [])
  | (k, v) :: rest =>
    let r1 := checkUnsetV ob (pathPlusKey p k) v (chOld dat k)
    let r2 := checkUnsetFields ⟨ob.data, r1.1, ob.events⟩ p rest dat
    (r2.1, r1.2 ++ r2.2)

end

/-- `_checkUnset(path, old, data)` with a possibly-`undefined` `old` (as
`set` passes it): an `undefined` old has no keys to recurse into and still
emits the `unset` when the new value is also `undefined`. -/
def checkUnset (ob : Ob) (p : JPath) (old : Option JVal) (dat : Option JVal) :
    List (JPath × List Seg) × List EmitCall :=
  match old with
  | some o => checkUnsetV ob p o dat
  | none =>
    if dat = none then emitWildcard ob p .eunset none none none
    else (ob.pathCache, [])

/-- `set`'s auto-extension loop
`let i = nodeLength; while (i++ < node.length) emit insert(node[i-1], i-1)`:
one `insert` per index from the old length up to the new length, lowest
first.  Called with the starting index and the number of new slots. -/
def emitInsertsUp (p : JPath) (xs : List JVal) : Ob → Nat → Nat →
    List (JPath × List Seg) × List EmitCall
  | ob, _, 0 => (ob.pathCache, [])
  | ob, i, k + 1 =>
    let r1 := emitWildcard ob p .einsert (some (xs.getD i (.prim .jnull))) (some (jidx i)) none
    let r2 := emitInsertsUp p xs ⟨ob.data, r1.1, ob.events⟩ (i + 1) k
    (r2.1, r1.2 ++ r2.2)

/-- The shift loop of `unset`/`remove` on an array parent
(`let i = node.length; while (i-- > index) emit move(node[i], i + 1, i)`):
one `move` per element at the spliced-out position and above, highest
index first, each reported as moving from `i + 1` to `i`.  Called with
`lo = index` and `k = node.length - index` (zero when `index` is at or past
the end, which is the source's `index < node.length` guard). -/
def emitMovesDown (p : JPath) (xs : List JVal) (lo : Nat) : Ob → Nat →
    List (JPath × List Seg) × List EmitCall
  | ob, 0 => (ob.pathCache, [])
  | ob, k + 1 =>
    let r1 := emitWildcard ob p .emove (some (xs.getD (lo + k) (.prim .jnull)))
      (some (jidx (lo + k + 1))) (some (jidx (lo + k)))
    let r2 := emitMovesDown p xs lo ⟨ob.data, r1.1, ob.events⟩ k
    (r2.1, r1.2 ++ r2.2)

/-- The shift loop of `insert`
(`let i = node.length; while (i-- > movedSince) emit move(node[i], i - 1, i)`):
one `move` per shifted element, highest index first, each reported as
moving from `i - 1` to `i` (its pre-shift position to its post-shift one).
Called with `lo = movedSince` and `k = node.length - movedSince`. -/
def emitMovesIns (p : JPath) (xs : List JVal) (lo : Nat) : Ob → Nat →
    List (JPath × List Seg) × List EmitCall
  | ob, 0 => (ob.pathCache, [])
  | ob, k + 1 =>
    let r1 := emitWildcard ob p .emove (some (xs.getD (lo + k) (.prim .jnull)))
      (some (jidx (lo + k - 1))) (some (jidx (lo + k)))
    let r2 := emitMovesIns p xs lo ⟨ob.data, r1.1, ob.events⟩ k
    (r2.1, r1.2 ++ r2.2)

/-- The gap-filling loop of `move`
(`let i = movedTill; while (i-- > movedSince) emit move(node[i + dir], i, i + dir)`):
highest index first, each displaced element reported with its new index
`i` and old index `i + dir`.  Called with `lo = movedSince`,
`k = movedTill - movedSince` and `dir = movedDirection` (±1). -/
def emitMovesGap (p : JPath) (xs : List JVal) (lo : Nat) (dir : Int) :
    Ob → Nat → List (JPath × List Seg) × List EmitCall
  | ob, 0 => (ob.pathCache, [])
  | ob, k + 1 =>
    let i := lo + k
    let r1 := emitWildcard ob p .emove (some (xs.getD ((i : Int) + dir).toNat (.prim .jnull)))
      (some (jidx i)) (some (.prim (.jnum (((i : Int) + dir : Int) : ℚ))))
    let r2 := emitMovesGap p xs lo dir ⟨ob.data, r1.1, ob.events⟩ k
    (r2.1, r1.2 ++ r2.2)

/-- The walk of `get`: `node = node[part]` per segment, returning early
with `null` or `undefined` as soon as one appears (so `get` never
throws). -/
def getWalk : JVal → List Seg → Option JVal
  | node, [] => some node
  | node, s :: rest =>
    match jsAccess node s with
    | none => none
    | some next =>
      if next = .prim .jnull then some next
      else getWalk next rest

/-- `Observer.get(path)` (the `path === undefined` early return is
subsumed by the `''` default parameter and the empty-parts walk, which
also returns `this.data`). -/
def obGet (ob : Ob) (p : JPath) : Option JVal × Ob :=
  let r := obMakePathParts ob p
  (getWalk r.2.data r.1, r.2)

/-- `Observer.clear()`: empty root object, cleared path cache, all
subscriptions dropped from the external emitter — note the events trie
`_eventsCache` is *not* cleared by the source. -/
def obClear (ob : Ob) : Ob := ⟨.obj [], [], ob.events⟩

/-- `Observer.set(path, data)`.  The one-argument shift, the root
non-object guard, the parent walk with its silent `undefined` returns
(and the TypeError a `null` intermediate raises), the parent object
check, the assignment, teardown diff, creation diff, and the
auto-extension `insert` loop for array parents. -/
def obSet (ob : Ob) (path0 : JPath) (dat0 : Option JVal) : OpOut :=
  let pd : JPath × JVal :=
    match dat0 with
    | none => (.str "", jpToJVal path0)
    | some d => (path0, d)
  let path := pd.1
  let dat := pd.2
  if path = .str "" ∧ ¬ isObj dat then ⟨ob, [], false⟩
  else
    let r := obMakePathParts ob path
    let parts := r.1
    let ob1 := r.2
    match walkSegsE ob1.data parts.dropLast with
    | .error _ => ⟨ob1, [], true⟩
    | .ok none => ⟨ob1, [], false⟩
    | .ok (some node) =>
      if ¬ isObj node then ⟨ob1, [], false⟩
      else if path = .str "" then
        let old := some ob1.data
        let r3 := checkUnset ⟨dat, ob1.pathCache, ob1.events⟩ path old (some dat)
        let r4 := checkSet ⟨dat, r3.1, ob1.events⟩ path dat old
        ⟨⟨dat, r4.1, ob1.events⟩, r3.2 ++ r4.2, false⟩
      else
        let last := lastSegOf parts
        let old := jsAccess node last
        let parent2 := setChild node last dat
        let data2 := modifyAt ob1.data parts.dropLast (fun _ => parent2)
        let r3 := checkUnset ⟨data2, ob1.pathCache, ob1.events⟩ path old (some dat)
        let r4 := checkSet ⟨data2, r3.1, ob1.events⟩ path dat old
        match node with
        | .arr xs =>
          let ys := match parent2 with | .arr ys => ys | _ => []
          let arrayPath : JPath := .str (segsJoin parts.dropLast)
          let r5 := emitInsertsUp arrayPath ys ⟨data2, r4.1, ob1.events⟩
            xs.length (ys.length - xs.length)
          ⟨⟨data2, r5.1, ob1.events⟩, r3.2 ++ r4.2 ++ r5.2, false⟩
        | _ => ⟨⟨data2, r4.1, ob1.events⟩, r3.2 ++ r4.2, false⟩

/-- `Observer.unset(path)`.  The source's `if (path === undefined)`
root-reset branch is unreachable — the default parameter `path = ''`
already replaced an absent/`undefined` argument before the test — so the
embedding begins past it: resolve, walk to the parent, read the target
(on empty `parts` this reads property "undefined", see `lastSegOf`),
return silently when it is `undefined`, emit the recursive teardown, then
either splice (array parent, with shift `move`s and a final `remove`) or
`delete` (any other parent). -/
def obUnset (ob : Ob) (path : JPath) : OpOut :=
  let r := obMakePathParts ob path
  let parts := r.1
  let ob1 := r.2
  match walkSegsE ob1.data parts.dropLast with
  | .error _ => ⟨ob1, [], true⟩
  | .ok none => ⟨ob1, [], false⟩
  | .ok (some node) =>
    match jsIndexE node (lastSegOf parts) with
    | .error _ => ⟨ob1, [], true⟩
    | .ok none => ⟨ob1, [], false⟩
    | .ok (some old) =>
      let r2 := checkUnset ob1 path (some old) none
      match node with
      | .arr xs =>
        if xs.length = 0 then ⟨⟨ob1.data, r2.1, ob1.events⟩, r2.2, false⟩
        else
          let idx : Nat :=
            match lastSegOf parts with
            | .num i => i.toNat
            | .str s => (canonIdx s).getD 0
          let ys := xs.eraseIdx idx
          let data2 := modifyAt ob1.data parts.dropLast (fun _ => .arr ys)
          let arrayPath : JPath := .str (segsJoin parts.dropLast)
          let r3 := emitMovesDown arrayPath ys idx ⟨data2, r2.1, ob1.events⟩ (ys.length - idx)
          let r4 := emitWildcard ⟨data2, r3.1, ob1.events⟩ arrayPath .eremove (some old)
            (some (segToJVal (lastSegOf parts))) none
          ⟨⟨data2, r4.1, ob1.events⟩, r2.2 ++ r3.2 ++ r4.2, false⟩
      | _ =>
        let data2 := modifyAt ob1.data parts.dropLast (fun v => delChild v (lastSegOf parts))
        ⟨⟨data2, r2.1, ob1.events⟩, r2.2, false⟩

/-- Result of the shared prologue of `insert`/`move`/`remove`. -/
structure Located where
  path : JPath
  partsQ : Option (List Seg)
  st : Ob
  node : Except Unit (Option JVal)

/-- The shared prologue of `insert`/`move`/`remove`: for a path other
than `''`/`null`, stringify an integer path, resolve (and cache) it, and
walk the *full* segment list down to the target container; otherwise the
target is the root and `parts` stays undefined. -/
def locateFull (ob : Ob) (path0 : JPath) : Located :=
  if path0 ≠ .str "" ∧ path0 ≠ .null then
    let path := jpConvert path0
    let r := obMakePathParts ob path
    ⟨path, some r.1, r.2, walkSegsE r.2.data r.1⟩
  else ⟨path0, none, ob, .ok (some ob.data)⟩

/-- Root (or located-node) replacement shared by the array mutators. -/
def writeLoc (root : JVal) (partsQ : Option (List Seg)) (v : JVal) : JVal :=
  match partsQ with
  | some parts => modifyAt root parts (fun _ => v)
  | none => v

/-- `Observer.insert(path, data, index = -1)` past the prologue: index
normalisation (`0` prepend; `-1` or `≥ length` append; `< -1` from the
end), the splice, the shift `move` loop (highest index first, each
`(value, i - 1, i)`), the `insert` event at the final index, and the
`_checkSet` of the new value at `(parts ? path + '.' : '') + index`. -/
def insertCore (st : Ob) (path : JPath) (partsQ : Option (List Seg)) (node : JVal)
    (dat : JVal) (index0 : Int) : OpOut :=
  match node with
  | .arr xs =>
    let len : Int := xs.length
    let index1 : Int :=
      if index0 < -1 then (if index0 < -len then 0 else len + index0 + 1) else index0
    let body : List JVal × Nat × Option Nat :=
      if index1 = 0 then (dat :: xs, 0, some 1)
      else if index1 = -1 ∨ index1 ≥ len then (xs ++ [dat], xs.length, none)
      else (xs.insertIdx index1.toNat dat, index1.toNat, some (index1.toNat + 1))
    let ys := body.1
    let fin := body.2.1
    let movedSince := body.2.2
    let data2 := writeLoc st.data partsQ (.arr ys)
    let r3 : List (JPath × List Seg) × List EmitCall :=
      match movedSince with
      | some lo => emitMovesIns path ys lo ⟨data2, st.pathCache, st.events⟩ (ys.length - lo)
      | none => (st.pathCache, [])
    let r4 := emitWildcard ⟨data2, r3.1, st.events⟩ path .einsert (some dat) (some (jidx fin)) none
    let csPath : JPath :=
      .str ((match partsQ with | some _ => jpString path ++ "." | none => "") ++ toString fin)
    let r5 := checkSet ⟨data2, r4.1, st.events⟩ csPath dat none
    ⟨⟨data2, r5.1, st.events⟩, r3.2 ++ r4.2 ++ r5.2, false⟩
  | _ => ⟨st, [], false⟩

/-- `Observer.insert(path, data, index = -1)`. -/
def obInsert (ob : Ob) (path0 : JPath) (dat : JVal) (index0 : Int := -1) : OpOut :=
  let L := locateFull ob path0
  match L.node with
  | .error _ => ⟨L.st, [], true⟩
  | .ok none => ⟨L.st, [], false⟩
  | .ok (some node) => insertCore L.st L.path L.partsQ node dat index0

/-- `Observer.move(path, from, to)` past the prologue: clamp both
indices, silent return when equal, splice out + splice in, the
gap-filling `move` loop, then the final `move` for the item itself.
(When the array is empty and one clamped index is `-1`, the source
shuffles `undefined` holes — outside the modelled fragment and outside
every claim.) -/
def moveCore (st : Ob) (path : JPath) (partsQ : Option (List Seg)) (node : JVal)
    (from0 to0 : Int) : OpOut :=
  match node with
  | .arr xs =>
    let len : Int := xs.length
    let f1 : Int :=
      if from0 < 0 then (if from0 < -len then 0 else len + from0)
      else if from0 ≥ len then len - 1 else from0
    let t1 : Int :=
      if to0 < 0 then (if to0 < -len then 0 else len + to0)
      else if to0 ≥ len then len - 1 else to0
    if f1 = t1 then ⟨st, [], false⟩
    else
      let fN := f1.toNat
      let tN := t1.toNat
      let data := xs.getD fN (.prim .jnull)
      let ws := (xs.eraseIdx fN).insertIdx tN data
      let data2 := writeLoc st.data partsQ (.arr ws)
      let gap : Nat × Nat × Int :=
        if t1 > f1 then (fN + 1, tN + 1, -1) else (tN, fN, 1)
      let r3 := emitMovesGap path ws gap.1 gap.2.2 ⟨data2, st.pathCache, st.events⟩
        (gap.2.1 - gap.1)
      let r4 := emitWildcard ⟨data2, r3.1, st.events⟩ path .emove (some data)
        (some (.prim (.jnum (f1 : ℚ)))) (some (.prim (.jnum (t1 : ℚ))))
      ⟨⟨data2, r4.1, st.events⟩, r3.2 ++ r4.2, false⟩
  | _ => ⟨st, [], false⟩

/-- `Observer.move(path, from, to)`. -/
def obMove (ob : Ob) (path0 : JPath) (from0 to0 : Int) : OpOut :=
  let L := locateFull ob path0
  match L.node with
  | .error _ => ⟨L.st, [], true⟩
  | .ok none => ⟨L.st, [], false⟩
  | .ok (some node) => moveCore L.st L.path L.partsQ node from0 to0

/-- `Observer.remove(path, index = -1)` past the prologue: empty or
non-array targets return silently; the index is clamped into range; the
recursive teardown of the removed element is emitted at
`(path ? path + '.' : '') + index` *before* the splice; then the shift
`move` loop (highest index first, each `(value, i + 1, i)`) and the final
`remove` with the removed value and its index. -/
def removeCore (st : Ob) (path : JPath) (partsQ : Option (List Seg)) (node : JVal)
    (index0 : Int) : OpOut :=
  match node with
  | .arr xs =>
    if xs.length = 0 then ⟨st, [], false⟩
    else
      let len : Int := xs.length
      let i1 : Int :=
        if index0 < 0 then (if index0 < -len then 0 else len + index0)
        else if index0 ≥ len then len - 1 else index0
      let iN := i1.toNat
      let data := xs.getD iN (.prim .jnull)
      let tdPath : JPath :=
        .str ((if jpTruthy path then jpString path ++ "." else "") ++ toString i1)
      let r2 := checkUnset st tdPath (some data) none
      let ys := xs.eraseIdx iN
      let data2 := writeLoc st.data partsQ (.arr ys)
      let r3 := emitMovesDown path ys iN ⟨data2, r2.1, st.events⟩ (ys.length - iN)
      let r4 := emitWildcard ⟨data2, r3.1, st.events⟩ path .eremove (some data)
        (some (.prim (.jnum (i1 : ℚ)))) none
      ⟨⟨data2, r4.1, st.events⟩, r2.2 ++ r3.2 ++ r4.2, false⟩
  | _ => ⟨st, [], false⟩

/-- `Observer.remove(path, index = -1)`. -/
def obRemove (ob : Ob) (path0 : JPath) (index0 : Int := -1) : OpOut :=
  let L := locateFull ob path0
  match L.node with
  | .error _ => ⟨L.st, [], true⟩
  | .ok none => ⟨L.st, [], false⟩
  | .ok (some node) => removeCore L.st L.path L.partsQ node index0

/-- A field found by `lookupField` is smaller than the field list
(termination helper for `_patchNode`). -/
theorem lookupField_sizeOf {fs : List (String × JVal)} {key : String} {v : JVal}
    (h : lookupField fs key = some v) : sizeOf v < sizeOf fs := by
  induction fs with
  | nil => simp [lookupField] at h
  | cons hd rest ih =>
    obtain ⟨k, w⟩ := hd
    simp only [lookupField] at h
    by_cases hk : k = key
    · simp only [if_pos hk, Option.some.injEq] at h
      cases h
      simp only [List.cons.sizeOf_spec, Prod.mk.sizeOf_spec]
      omega
    · simp only [if_neg hk] at h
      have := ih h
      simp only [List.cons.sizeOf_spec, Prod.mk.sizeOf_spec]
      omega

/-- An element found by `List.get?` is smaller than the list. -/
theorem listGet_sizeOf {xs : List JVal} {n : Nat} {v : JVal}
    (h : xs.get? n = some v) : sizeOf v < sizeOf xs :=
  List.sizeOf_lt_of_mem (List.get?_mem h)

/-- A child read through `jsAccess` is structurally smaller than its
container (termination of `_patchNode`'s recursion into `data[key]`). -/
theorem jsAccess_sizeOf {v : JVal} {s : Seg} {c : JVal}
    (h : jsAccess v s = some c) : sizeOf c < sizeOf v := by
  cases v with
  | prim p => simp [jsAccess] at h
  | arr xs =>
    have hx : sizeOf c < sizeOf xs := by
      cases s with
      | num i =>
        simp only [jsAccess] at h
        split at h
        · simp at h
        · exact listGet_sizeOf h
      | str t =>
        simp only [jsAccess] at h
        split at h
        · exact listGet_sizeOf h
        · simp at h
    simp only [JVal.arr.sizeOf_spec]
    omega
  | obj fs =>
    have hx : sizeOf c < sizeOf fs := by
      cases s with
      | num i => exact lookupField_sizeOf h
      | str t => exact lookupField_sizeOf h
    simp only [JVal.obj.sizeOf_spec]
    omega

/-- The own-key list JS `for..in` enumerates on the modelled receivers
(array index keys ascending, then nothing else; object keys in insertion
order — the model assumes object keys are not integer-like, which JS
would hoist to the front; no claim uses integer-like object keys). -/
def ownKeys : JVal → List String
  | .arr xs => (List.range xs.length).map toString
  | .obj fs => fs.map (fun kv => kv.1)
  | .prim _ => []

/-- `node.hasOwnProperty(key)` on the modelled receivers (`length` and
other exotic array properties excluded from the fragment). -/
def hasOwn (node : JVal) (key : String) : Bool :=
  match node with
  | .arr xs =>
    match canonIdx key with
    | some n => n < xs.length
    | none => false
  | .obj fs => (lookupField fs key).isSome
  | .prim _ => false

mutual

/-- `_patchNode(path, node, data)`: pass 1 updates the keys `node`
already owns, pass 2 appends the keys only `data` has.  `loc` is the
segment location of `node` inside the root, used to mirror the source's
in-place mutation of the aliased node into the functional root. -/
def patchNode (st : Ob) (p : JPath) (loc : List Seg) (node : JVal) (data : JVal) :
    Ob × JVal × List EmitCall :=
  let r1 := patchPass1 st p loc node (ownKeys node) data
  let r2 := patchPass2 r1.1 p loc r1.2.1 (ownKeys data) data
  (r2.1, r2.2.1, r1.2.2 ++ r2.2.2)
termination_by (sizeOf data, 1, 0)

/-- Pass 1 of `_patchNode`: for every key of `node` that is defined in
`data` — recurse when both sides are objects, replace + teardown + single
`set` when an object becomes a scalar, replace + `_checkSet` when the
current value is a scalar. -/
def patchPass1 (st : Ob) (p : JPath) (loc : List Seg) (node : JVal)
    (keys : List String) (data : JVal) : Ob × JVal × List EmitCall :=
  match keys with
  | [] => (st, node, [])
  | key :: rest =>
    match hdv : jsAccess data (.str key) with
    | none => patchPass1 st p loc node rest data
    | some dv =>
      let current := (jsAccess node (.str key)).getD (.prim .jnull)
      let pd := pathPlusKey p key
      if isObj current then
        if isObj dv then
          let r := patchNode st pd (loc ++ [.str key]) current dv
          let node2 := setChild node (.str key) r.2.1
          let rr := patchPass1 r.1 p loc node2 rest data
          (rr.1, rr.2.1, r.2.2 ++ rr.2.2)
        else
          let node2 := setChild node (.str key) dv
          let st2 : Ob := ⟨modifyAt st.data loc (fun _ => node2), st.pathCache, st.events⟩
          let ru := checkUnset st2 pd (some current) (some dv)
          let re := emitWildcard ⟨st2.data, ru.1, st2.events⟩ pd .eset (some dv) (some current) none
          let rr := patchPass1 ⟨st2.data, re.1, st2.events⟩ p loc node2 rest data
          (rr.1, rr.2.1, ru.2 ++ re.2 ++ rr.2.2)
      else
        let node2 := setChild node (.str key) dv
        let st2 : Ob := ⟨modifyAt st.data loc (fun _ => node2), st.pathCache, st.events⟩
        let rs := checkSet st2 pd dv (some current)
        let rr := patchPass1 ⟨st2.data, rs.1, st2.events⟩ p loc node2 rest data
        (rr.1, rr.2.1, rs.2 ++ rr.2.2)
termination_by (sizeOf data, 0, keys.length)
decreasing_by
  all_goals simp_wf
  all_goals first
    | exact Prod.Lex.left _ _ (by have := jsAccess_sizeOf hdv; omega)
    | exact Prod.Lex.right _ (Prod.Lex.right _ (by omega))

/-- Pass 2 of `_patchNode`: assign every key of `data` that `node` does
not own yet, run `_checkSet` on it, and, when the node is an array,
additionally emit an `insert` for the new index (`parseInt(key)`; a
non-numeric key would give `NaN`, which the model leaves as `undefined` —
unreachable from the claims). -/
def patchPass2 (st : Ob) (p : JPath) (loc : List Seg) (node : JVal)
    (keys : List String) (data : JVal) : Ob × JVal × List EmitCall :=
  match keys with
  | [] => (st, node, [])
  | key :: rest =>
    if hasOwn node key then patchPass2 st p loc node rest data
    else
      match jsAccess data (.str key) with
      | none => patchPass2 st p loc node rest data
      | some v =>
        let pd := pathPlusKey p key
        let node2 := setChild node (.str key) v
        let st2 : Ob := ⟨modifyAt st.data loc (fun _ => node2), st.pathCache, st.events⟩
        let rs := checkSet st2 pd v none
        let ri : List (JPath × List Seg) × List EmitCall :=
          match node with
          | .arr _ => emitWildcard ⟨st2.data, rs.1, st2.events⟩ p .einsert
              (jsAccess node2 (.str key))
              ((jsParseInt key).map (fun i => JVal.prim (.jnum (i : ℚ)))) none
          | _ => (rs.1, [])
        let rr := patchPass2 ⟨st2.data, ri.1, st2.events⟩ p loc node2 rest data
        (rr.1, rr.2.1, rs.2 ++ ri.2 ++ rr.2.2)
termination_by (sizeOf data, 0, keys.length)
decreasing_by
  all_goals simp_wf
  all_goals exact Prod.Lex.right _ (Prod.Lex.right _ (by omega))

end

/-- `Observer.patch(path, data)`: same one-argument shift, root guard,
walk and parent-object check as `set`; then merge (`_patchNode`) when both
the current value and the patch are objects, wholesale replace with
teardown + single `set` when an object becomes a scalar, replace +
`_checkSet` when a scalar becomes an object, and replace + single `set`
when two scalars differ (nothing at all when they are identical). -/
def obPatch (ob : Ob) (path0 : JPath) (dat0 : Option JVal) : OpOut :=
  let pd : JPath × JVal :=
    match dat0 with
    | none => (.str "", jpToJVal path0)
    | some d => (path0, d)
  let path := pd.1
  let dat := pd.2
  if path = .str "" ∧ ¬ isObj dat then ⟨ob, [], false⟩
  else
    let r := obMakePathParts ob path
    let parts := r.1
    let ob1 := r.2
    match walkSegsE ob1.data parts.dropLast with
    | .error _ => ⟨ob1, [], true⟩
    | .ok none => ⟨ob1, [], false⟩
    | .ok (some node) =>
      if ¬ isObj node then ⟨ob1, [], false⟩
      else
        let current : Option JVal :=
          if path = .str "" then some ob1.data else jsAccess node (lastSegOf parts)
        if isObjOpt current then
          if isObj dat then
            let loc := if path = .str "" then ([] : List Seg) else parts
            let pr := patchNode ob1 path loc (current.getD (.obj [])) dat
            ⟨pr.1, pr.2.2, false⟩
          else
            let parent2 := setChild node (lastSegOf parts) dat
            let data2 := modifyAt ob1.data parts.dropLast (fun _ => parent2)
            let ru := checkUnset ⟨data2, ob1.pathCache, ob1.events⟩ path current (some dat)
            let re := emitWildcard ⟨data2, ru.1, ob1.events⟩ path .eset (some dat) current none
            ⟨⟨data2, re.1, ob1.events⟩, ru.2 ++ re.2, false⟩
        else if isObj dat then
          let parent2 := setChild node (lastSegOf parts) dat
          let data2 := modifyAt ob1.data parts.dropLast (fun _ => parent2)
          let rs := checkSet ⟨data2, ob1.pathCache, ob1.events⟩ path dat current
          ⟨⟨data2, rs.1, ob1.events⟩, rs.2, false⟩
        else if current ≠ some dat then
          let parent2 := setChild node (lastSegOf parts) dat
          let data2 := modifyAt ob1.data parts.dropLast (fun _ => parent2)
          let re := emitWildcard ⟨data2, ob1.pathCache, ob1.events⟩ path .eset (some dat) current none
          ⟨⟨data2, re.1, ob1.events⟩, re.2, false⟩
        else ⟨ob1, [], false⟩

/-- Literal string value. -/
def jsv (s : String) : JVal := .prim (.jstr s)

/-- Literal numeric value. -/
def jnv (q : ℚ) : JVal := .prim (.jnum q)

/-- `7.594` (JS decimal literal, as the reduced rational 3797/500). -/
def q7594 : ℚ := ⟨3797, 500, by norm_num, by norm_num⟩

/-- `7.595` (JS decimal literal, as the reduced rational 1519/200). -/
def q7595 : ℚ := ⟨1519, 200, by norm_num, by norm_num⟩

/-- Is this emit the catch-all (bare-kind) one? -/
def isBareCall (e : EmitCall) : Bool :=
  match e.name with
  | .bare _ => true
  | .qual _ _ => false

/-- The kind of an emit call. -/
def callKind (e : EmitCall) : EvKind :=
  match e.name with
  | .bare k => k
  | .qual _ k => k

/-- The logical change stream of a mutation: every `_emitWildcard` call
ends in exactly one catch-all emit, so projecting the trace onto the
catch-all calls — as (kind, raw event path, arguments) tuples — recovers
the sequence of changes independently of which subscriptions exist. -/
def bareTrace (l : List EmitCall) :
    List (EvKind × JPath × Option JVal × Option JVal × Option JVal) :=
  (l.filter isBareCall).map (fun e => (callKind e, e.rawPath, e.a1, e.a2, e.a3))

/-- `bareTrace` distributes over concatenation. -/
theorem bareTrace_append (l1 l2 : List EmitCall) :
    bareTrace (l1 ++ l2) = bareTrace l1 ++ bareTrace l2 := by
  simp [bareTrace, List.filter_append]

/-- The qualified calls produced by the trie scan are never catch-alls. -/
theorem filter_isBareCall_qual (L : List String) (k : EvKind) (raw : JPath)
    (parts : List Seg) (a1 a2 a3 : Option JVal) :
    (L.map (fun s => qualCall s k raw parts a1 a2 a3)).filter isBareCall = [] := by
  induction L with
  | nil => rfl
  | cons s rest ih => simp [qualCall, isBareCall, ih]

/-- One `_emitWildcard` call contributes exactly one catch-all to the
change stream: its kind, its raw path argument, and its value
arguments. -/
theorem bareTrace_emitWildcard (ob : Ob) (p : JPath) (k : EvKind)
    (a1 a2 a3 : Option JVal) :
    bareTrace (emitWildcard ob p k a1 a2 a3).2 = [(k, p, a1, a2, a3)] := by
  show bareTrace ((emitDeeper _ _ _ _).map _ ++ [_]) = _
  rw [bareTrace]
  rw [List.filter_append, filter_isBareCall_qual]
  rfl

/-- `_makePathParts` never changes the observer's data. -/
theorem obMakePathParts_data (ob : Ob) (p : JPath) :
    ((obMakePathParts ob p).2).data = ob.data := by
  unfold obMakePathParts
  split
  · rfl
  · split <;> rfl

/-- `_makePathParts` never changes the events trie. -/
theorem obMakePathParts_events (ob : Ob) (p : JPath) :
    ((obMakePathParts ob p).2).events = ob.events := by
  unfold obMakePathParts
  split
  · rfl
  · split <;> rfl

/-- The `insert`/`move`/`remove` prologue never changes the data. -/
theorem locateFull_data (ob : Ob) (p : JPath) :
    (locateFull ob p).st.data = ob.data := by
  unfold locateFull
  split
  · exact obMakePathParts_data ..
  · rfl

/-- The change stream of the `unset`/`remove` shift loop: one `move` per
index from `lo + k - 1` down to `lo`, each `(xs[j], j + 1, j)`. -/
theorem bareTrace_emitMovesDown (p : JPath) (xs : List JVal) (lo : Nat) :
    ∀ (k : Nat) (ob : Ob),
      bareTrace (emitMovesDown p xs lo ob k).2 =
        (List.range k).reverse.map (fun j0 =>
          (EvKind.emove, p, some (xs.getD (lo + j0) (.prim .jnull)),
            some (jidx (lo + j0 + 1)), some (jidx (lo + j0)))) := by
  intro k
  induction k with
  | zero => intro ob; rfl
  | succ k ih =>
    intro ob
    show bareTrace ((emitWildcard ob p _ _ _ _).2 ++ (emitMovesDown p xs lo _ k).2) = _
    rw [bareTrace_append, bareTrace_emitWildcard, ih]
    simp [List.range_succ]

/-- Claim C1 (code evaluated at the failing input): calling `unset('')`
on data `{a: 1}` is a silent no-op — the data keeps its old value `{a: 1}`
(so `get` still returns it, not a fresh empty object) and no teardown
events are emitted.  The source's root-reset branch tests
`path === undefined` after the default parameter `path = ''` has already
replaced an absent/`undefined` argument, so it can never run; with
`path === ''` the `parts` array is empty, `node[parts[-1]]` reads the
absent property "undefined", and the method returns at the
`old === undefined` guard. -/
theorem c1_unset_empty_path_is_noop :
    (obUnset (obInit (.obj [("a", jnv 1)])) (.str "")).ob.data = .obj [("a", jnv 1)] ∧
    (obUnset (obInit (.obj [("a", jnv 1)])) (.str "")).evs = [] ∧
    (obUnset (obInit (.obj [("a", jnv 1)])) (.str "")).thrown = false ∧
    (obGet (obUnset (obInit (.obj [("a", jnv 1)])) (.str "")).ob (.str "")).1
      = some (.obj [("a", jnv 1)]) := by
  decide

/-- Claim C3, counterexample: on `['a','b','c']`, `insert('', 'x', 1)`
does not emit the `move` for `'b'` before the `move` for `'c'` — the
claimed subsequence (move `'b'` 1→2, then move `'c'` 2→3, then the
insert) does not occur in the emitted call list, because the shift loop
runs from the highest index down. -/
theorem c3_counterexample :
    ¬ List.Sublist
      [⟨.bare .emove, .str "", [], some (jsv "b"), some (jnv 1), some (jnv 2)⟩,
       ⟨.bare .emove, .str "", [], some (jsv "c"), some (jnv 2), some (jnv 3)⟩,
       ⟨.bare .einsert, .str "", [], some (jsv "x"), some (jnv 1), none⟩]
      (obInsert (obInit (.arr [jsv "a", jsv "b", jsv "c"])) (.str "") (jsv "x") 1).evs := by
  decide

/-- Claim C3 as amended: on `['a','b','c']`, `insert('', 'x', 1)` yields
`['a','x','b','c']` and emits, in order, `move('c', 2, 3)` then
`move('b', 1, 2)` (highest index first), then `insert('x', 1)`, and
finally the `_checkSet` notification `set` at path `'1'` for the new
value. -/
theorem c3_insert_reindexing :
    (obInsert (obInit (.arr [jsv "a", jsv "b", jsv "c"])) (.str "") (jsv "x") 1).ob.data
      = .arr [jsv "a", jsv "x", jsv "b", jsv "c"] ∧
    (obInsert (obInit (.arr [jsv "a", jsv "b", jsv "c"])) (.str "") (jsv "x") 1).evs =
      [⟨.bare .emove, .str "", [], some (jsv "c"), some (jnv 2), some (jnv 3)⟩,
       ⟨.bare .emove, .str "", [], some (jsv "b"), some (jnv 1), some (jnv 2)⟩,
       ⟨.bare .einsert, .str "", [], some (jsv "x"), some (jnv 1), none⟩,
       ⟨.bare .eset, .str "1", [.num 1], some (jsv "x"), none, none⟩] := by
  decide

/-- Claim C9: on `['a','b','c','d']`, `move('', 0, 2)` reorders the data
to `['b','c','a','d']`, and the subsequent `move('', 2, 0)` restores the
original `['a','b','c','d']`: the second move is the inverse of the
first. -/
theorem c9_move_inverse :
    (obMove (obInit (.arr [jsv "a", jsv "b", jsv "c", jsv "d"])) (.str "") 0 2).ob.data
      = .arr [jsv "b", jsv "c", jsv "a", jsv "d"] ∧
    (obMove (obMove (obInit (.arr [jsv "a", jsv "b", jsv "c", jsv "d"])) (.str "") 0 2).ob
        (.str "") 2 0).ob.data
      = .arr [jsv "a", jsv "b", jsv "c", jsv "d"] := by
  decide

/-- Claim C4: with `{earth: {population: 7.594}, mars: {population: 0}}`
and a subscription to `'*.population:set'`, `set('earth.population',
7.595)` performs exactly two emits — the qualified `'*.population:set'`
emit (so the subscription fires exactly once) with arguments
`(['earth','population'], 7.595, 7.594)`, followed by the catch-all — and
the subsequent `set('mars.name', 'Mars')` performs no
`'*.population:set'` emit at all, so that subscription does not fire. -/
theorem c4_wildcard_population :
    (obSet (obOn (obInit (.obj
        [("earth", .obj [("population", jnv q7594)]),
         ("mars", .obj [("population", jnv 0)])])) "*.population:set")
      (.str "earth.population") (some (jnv q7595))).evs =
      [⟨.qual "*.population" .eset, .str "earth.population",
         [.str "earth", .str "population"], some (jnv q7595), some (jnv q7594), none⟩,
       ⟨.bare .eset, .str "earth.population",
         [.str "earth", .str "population"], some (jnv q7595), some (jnv q7594), none⟩] ∧
    ((obSet (obOn (obInit (.obj
        [("earth", .obj [("population", jnv q7594)]),
         ("mars", .obj [("population", jnv 0)])])) "*.population:set")
      (.str "earth.population") (some (jnv q7595))).evs.countP
        (fun e => e.name = .qual "*.population" .eset)) = 1 ∧
    ((obSet (obSet (obOn (obInit (.obj
        [("earth", .obj [("population", jnv q7594)]),
         ("mars", .obj [("population", jnv 0)])])) "*.population:set")
      (.str "earth.population") (some (jnv q7595))).ob
      (.str "mars.name") (some (jsv "Mars"))).evs.countP
        (fun e => e.name = .qual "*.population" .eset)) = 0 := by
  decide

/-- Claim C10: for every path argument `p` (string, integer, or even
`null`), `set(p, undefined)` takes the one-argument shift — it is the
very same call as `set('', p)` with the path value moved into data
position — and since a string/number/`null` is not an object, the root
guard makes it a complete no-op: state unchanged, no events, no throw, so
`undefined` can never be assigned through `set`; `patch(p, undefined)`
shifts identically and is likewise a no-op. -/
theorem c10_undefined_data_shift (ob : Ob) (p : JPath) :
    obSet ob p none = obSet ob (.str "") (some (jpToJVal p)) ∧
    obSet ob p none = ⟨ob, [], false⟩ ∧
    obPatch ob p none = ⟨ob, [], false⟩ := by
  refine ⟨rfl, ?_, ?_⟩ <;> cases p <;> rfl

/-- Claim C6, counterexample: `_checkSet('p', {}, {})` pairs two
objects, and emits nothing at all — in particular no `set` at `'p'` —
contradicting "object-vs-object pairs always emit". -/
theorem c6_counterexample :
    (checkSet (obInit (.obj [])) (.str "p") (.obj []) (some (.obj []))).2 = [] := by
  decide

/-- Claim C6 as amended: after recursing into the children, `_checkSet`
emits the `set` event at `path` exactly when the two values are not
identical (`!==`) and are **not** both objects/arrays; so the skip
conditions are an identical non-object pair and *any* object-object pair
(whose differences surface only through the recursion) — an
object-object pair never emits at `path` itself, deep-equal or not. -/
theorem c6_checkset_emit_condition (ob : Ob) (p : JPath) (dat : JVal) (old : Option JVal) :
    checkSet ob p dat old =
      (let r1 : List (JPath × List Seg) × List EmitCall :=
        match dat with
        | .arr xs => checkSetElems ob p xs 0 old
        | .obj fs => checkSetFields ob p fs old
        | .prim _ => (ob.pathCache, [])
      if some dat ≠ old ∧ ¬ (isObj dat ∧ isObjOpt old) then
        let r2 := emitWildcard ⟨ob.data, r1.1, ob.events⟩ p .eset (some dat) old none
        (r2.1, r1.2 ++ r2.2)
      else r1) ∧
    (isObj dat → isObjOpt old →
      checkSet ob p dat old =
        (match dat with
         | .arr xs => checkSetElems ob p xs 0 old
         | .obj fs => checkSetFields ob p fs old
         | .prim _ => (ob.pathCache, []))) := by
  constructor
  · rw [checkSet.eq_def]
    apply if_congr _ rfl rfl
    cases hd : isObj dat <;> cases ho : isObjOpt old <;> simp [hd, ho]
  · intro hd ho
    rw [checkSet.eq_def]
    simp [hd, ho]

/-- Claim C6, witness: the amended theorem applied at a concrete
object-object pair — `_checkSet('p', {a: 1}, {})` reduces to its
children pass alone (which does emit `set p.a`, but nothing at `p`). -/
theorem c6_checkset_emit_condition_witness :
    checkSet (obInit (.obj [])) (.str "p") (.obj [("a", jnv 1)]) (some (.obj [])) =
      checkSetFields (obInit (.obj [])) (.str "p") [("a", jnv 1)] (some (.obj [])) :=
  (c6_checkset_emit_condition (obInit (.obj [])) (.str "p")
    (.obj [("a", jnv 1)]) (some (.obj []))).2 (by decide) (by decide)

/-- `Map.set` followed by `Map.get` of the same key. -/
theorem cacheGet_cacheSet (c : List (JPath × List Seg)) (k : JPath) (v : List Seg) :
    cacheGet (cacheSet c k v) k = some v := by
  induction c with
  | nil => simp [cacheSet, cacheGet]
  | cons hd rest ih =>
    obtain ⟨k', w⟩ := hd
    by_cases hk : k' = k
    · simp [cacheSet, cacheGet, hk]
    · simp [cacheSet, cacheGet, hk, ih]

/-- Claim C8, counterexample: the raw path `0` (the integer) resolves to
`[0]` (numeric index) while the root is the array `['a']`, but the cache
entry is stored under the *string* key `"0"`; after the root is replaced
by an object — and with no `clear()` in between — a later call with the
same raw path `0` misses the cache, re-resolves against the new shape,
and returns `["0"]` (string key), not the previously returned
sequence. -/
theorem c8_counterexample :
    (obMakePathParts (obInit (.arr [jsv "a"])) (.int 0)).1 = [.num 0] ∧
    (obMakePathParts ((obSet ((obMakePathParts (obInit (.arr [jsv "a"])) (.int 0)).2)
        (.str "") (some (.obj [("x", jnv 1)]))).ob) (.int 0)).1 = [.str "0"] ∧
    ([Seg.num 0] ≠ ([.str "0"] : List Seg)) := by
  decide

/-- Claim C8 as amended: the caching contract holds keyed by the raw
value actually used as the `Map` key — (1) whenever the raw path is
present in `_pathCache`, `_makePathParts` returns the cached segment
sequence unchanged and leaves the observer untouched, regardless of any
data-shape change since it was stored; and (2) a *string* raw path is
cached under itself by its first resolution, so an immediately following
call with the same string returns that same sequence and state.  Integer
raw paths are excluded: they are cached under their decimal string form,
so direct calls with the integer re-resolve every time (see the
counterexample). -/
theorem c8_cached_resolution_reused :
    (∀ (ob : Ob) (k : JPath) (parts : List Seg),
      cacheGet ob.pathCache k = some parts → obMakePathParts ob k = (parts, ob)) ∧
    (∀ (ob : Ob) (s : String),
      obMakePathParts (obMakePathParts ob (.str s)).2 (.str s) =
        ((obMakePathParts ob (.str s)).1, (obMakePathParts ob (.str s)).2)) := by
  constructor
  · intro ob k parts h
    unfold obMakePathParts
    rw [h]
  · intro ob s
    rcases hc : cacheGet ob.pathCache (.str s) with _ | parts
    · by_cases hs : s = ""
      · subst hs
        unfold obMakePathParts
        rw [hc]
        simp [cacheGet_cacheSet]
      · unfold obMakePathParts
        rw [hc]
        simp [hs, jpString, cacheGet_cacheSet]
    · unfold obMakePathParts
      simp [hc]

/-- `bareTrace` of no calls. -/
theorem bareTrace_nil : bareTrace [] = [] := rfl

/-- An in-range array write (one whose target the walk could read)
preserves the array's length, so `set` on an existing array slot emits no
auto-extension `insert`s. -/
theorem setChild_arr_length {xs : List JVal} {sg : Seg} {v w : JVal}
    (h : jsAccess (.arr xs) sg = some w) :
    (match setChild (.arr xs) sg v with | .arr ys => ys | _ => ([] : List JVal)).length
      = xs.length := by
  cases sg with
  | num i =>
    rw [jsAccess] at h
    split at h
    · simp at h
    · rename_i hneg
      have hlt : i.toNat < xs.length := (List.get?_eq_some.mp h).1
      simp [setChild, hneg, listWrite, hlt]
  | str t =>
    rw [jsAccess] at h
    split at h
    · rename_i n hn
      have hlt : n < xs.length := (List.get?_eq_some.mp h).1
      simp [setChild, hn, listWrite, hlt]
    · simp at h

/-- Claim C5: when the value reached by a non-root path `p` is
`{a: x, b: y}`, `set(p, {a: x, c: z})` emits exactly two changes — one
`unset` at `p.b` carrying the old value `y`, then one `set` at `p.c`
carrying the new value `z` (old value `undefined`) — and no event at
`p.a` (value unchanged) nor at `p` itself (an object replaced an
object); the call does not throw.  `node` is the parent container
reached by the navigation walk and the paths are built by the source's
`path + '.' + key` concatenation (`pathPlusKey`). -/
theorem c5_set_replacement_diff
    (ob : Ob) (s : String) (node : JVal) (a b c : ℚ)
    (hs : s ≠ "")
    (hw : walkSegsE ob.data ((obMakePathParts ob (.str s)).1).dropLast = .ok (some node))
    (hold : jsAccess node (lastSegOf (obMakePathParts ob (.str s)).1) =
      some (.obj [("a", jnv a), ("b", jnv b)])) :
    bareTrace (obSet ob (.str s) (some (.obj [("a", jnv a), ("c", jnv c)]))).evs =
      [(.eunset, pathPlusKey (.str s) "b", some (jnv b), none, none),
       (.eset, pathPlusKey (.str s) "c", some (jnv c), none, none)] ∧
    (obSet ob (.str s) (some (.obj [("a", jnv a), ("c", jnv c)]))).thrown = false := by
  rcases node with p0 | xs | fs
  · rw [jsAccess] at hold
    simp at hold
  · constructor
    · simp [obSet, obMakePathParts_data, hw, hold, hs, isObj]
      rw [bareTrace_append, bareTrace_append]
      have hlen := setChild_arr_length (v := JVal.obj [("a", jnv a), ("c", jnv c)]) hold
      rw [hlen]
      simp [checkUnset, checkUnsetV, checkUnsetFields, checkSet, checkSetFields, chOld,
        jsAccess, lookupField, isObj, isObjOpt, bareTrace_append, bareTrace_emitWildcard,
        bareTrace_nil, emitInsertsUp, jnv]
    · simp [obSet, obMakePathParts_data, hw, hold, hs, isObj]
  · constructor
    · simp [obSet, obMakePathParts_data, hw, hold, hs, isObj]
      rw [bareTrace_append]
      simp [checkUnset, checkUnsetV, checkUnsetFields, checkSet, checkSetFields, chOld,
        jsAccess, lookupField, isObj, isObjOpt, bareTrace_append, bareTrace_emitWildcard,
        bareTrace_nil, jnv]
    · simp [obSet, obMakePathParts_data, hw, hold, hs, isObj]

/-- Claim C5, witness: the theorem applied to
`new Observer({p: {a: 1, b: 2}})` and `set('p', {a: 1, c: 3})` — the
emitted changes are exactly `unset p.b (old 2)` then `set p.c (new 3)`. -/
theorem c5_set_replacement_diff_witness :
    bareTrace (obSet (obInit (.obj [("p", .obj [("a", jnv 1), ("b", jnv 2)])])) (.str "p")
        (some (.obj [("a", jnv 1), ("c", jnv 3)]))).evs =
      [(.eunset, pathPlusKey (.str "p") "b", some (jnv 2), none, none),
       (.eset, pathPlusKey (.str "p") "c", some (jnv 3), none, none)] ∧
    (obSet (obInit (.obj [("p", .obj [("a", jnv 1), ("b", jnv 2)])])) (.str "p")
        (some (.obj [("a", jnv 1), ("c", jnv 3)]))).thrown = false :=
  c5_set_replacement_diff (obInit (.obj [("p", .obj [("a", jnv 1), ("b", jnv 2)])])) "p"
    (.obj [("p", .obj [("a", jnv 1), ("b", jnv 2)])]) 1 2 3
    (by decide) (by rfl) (by decide)

/-- Claim C2: for every state whose `insert/move/remove` prologue
resolves path `p` to a non-empty array `xs`, and every in-range index
`i`, `remove(p, i)` (1) leaves the data as the original with element `i`
deleted (all later elements shifted left), written back at the located
position; (2) does not throw; and (3) emits, in order: first the
recursive `_checkUnset` teardown of the element at `i` (at event path
`(p ? p + '.' : '') + i`), then one `move` per following element in
decreasing index order — the element now at index `i + j0` reported with
old index `i + j0 + 1` and new index `i + j0` — and finally one `remove`
carrying the removed value and its original index `i`. -/
theorem c2_remove_reindexing
    (ob : Ob) (p0 : JPath) (i : Nat) (xs : List JVal)
    (hne : xs ≠ []) (hi : i < xs.length)
    (hnode : (locateFull ob p0).node = .ok (some (.arr xs))) :
    (obRemove ob p0 (i : Int)).ob.data
      = writeLoc ob.data (locateFull ob p0).partsQ (.arr (xs.eraseIdx i)) ∧
    (obRemove ob p0 (i : Int)).thrown = false ∧
    bareTrace (obRemove ob p0 (i : Int)).evs =
      bareTrace (checkUnset (locateFull ob p0).st
        (.str ((if jpTruthy (locateFull ob p0).path
          then jpString (locateFull ob p0).path ++ "." else "") ++ toString (i : Int)))
        (some (xs.getD i (.prim .jnull))) none).2
      ++ (List.range ((xs.eraseIdx i).length - i)).reverse.map (fun j0 =>
            (EvKind.emove, (locateFull ob p0).path,
             some ((xs.eraseIdx i).getD (i + j0) (.prim .jnull)),
             some (jidx (i + j0 + 1)), some (jidx (i + j0))))
      ++ [(EvKind.eremove, (locateFull ob p0).path, some (xs.getD i (.prim .jnull)),
           some (.prim (.jnum ((i : Int) : ℚ))), none)] := by
  have h1 : ¬ ((i : Int) < 0) := by omega
  have h2 : ¬ ((i : Int) ≥ (xs.length : Int)) := by omega
  have hlen : xs.length ≠ 0 := by
    intro hz
    exact hne (List.length_eq_zero.mp hz)
  unfold obRemove
  simp only [hnode]
  unfold removeCore
  simp only [h1, h2, hlen, if_false, if_neg, ite_false, Int.toNat_ofNat,
    locateFull_data, bareTrace_append, bareTrace_emitWildcard, bareTrace_emitMovesDown]
  exact ⟨trivial, trivial, trivial⟩

/-- Claim C2, witness: the theorem applied to `remove('', 0)` on the root
array `['a','b','c']` — the data becomes `['b','c']` and the changes are
the teardown `unset` at `'0'` for `'a'`, then `move('c', 2, 1)`,
`move('b', 1, 0)`, then `remove('a', 0)`. -/
theorem c2_remove_reindexing_witness :
    (obRemove (obInit (.arr [jsv "a", jsv "b", jsv "c"])) (.str "") ((0 : Nat) : Int)).ob.data
      = writeLoc (obInit (.arr [jsv "a", jsv "b", jsv "c"])).data
          (locateFull (obInit (.arr [jsv "a", jsv "b", jsv "c"])) (.str "")).partsQ
          (.arr ([jsv "a", jsv "b", jsv "c"].eraseIdx 0)) ∧
    (obRemove (obInit (.arr [jsv "a", jsv "b", jsv "c"])) (.str "") ((0 : Nat) : Int)).thrown
      = false ∧
    bareTrace (obRemove (obInit (.arr [jsv "a", jsv "b", jsv "c"])) (.str "")
        ((0 : Nat) : Int)).evs =
      bareTrace (checkUnset (locateFull (obInit (.arr [jsv "a", jsv "b", jsv "c"])) (.str "")).st
        (.str ((if jpTruthy (locateFull (obInit (.arr [jsv "a", jsv "b", jsv "c"])) (.str "")).path
          then jpString (locateFull (obInit (.arr [jsv "a", jsv "b", jsv "c"])) (.str "")).path ++ "."
          else "") ++ toString ((0 : Nat) : Int)))
        (some ([jsv "a", jsv "b", jsv "c"].getD 0 (.prim .jnull))) none).2
      ++ (List.range (([jsv "a", jsv "b", jsv "c"].eraseIdx 0).length - 0)).reverse.map (fun j0 =>
            (EvKind.emove, (locateFull (obInit (.arr [jsv "a", jsv "b", jsv "c"])) (.str "")).path,
             some (([jsv "a", jsv "b", jsv "c"].eraseIdx 0).getD (0 + j0) (.prim .jnull)),
             some (jidx (0 + j0 + 1)), some (jidx (0 + j0))))
      ++ [(EvKind.eremove, (locateFull (obInit (.arr [jsv "a", jsv "b", jsv "c"])) (.str "")).path,
           some ([jsv "a", jsv "b", jsv "c"].getD 0 (.prim .jnull)),
           some (.prim (.jnum (((0 : Nat) : Int) : ℚ))), none)] :=
  c2_remove_reindexing (obInit (.arr [jsv "a", jsv "b", jsv "c"])) (.str "") 0
    [jsv "a", jsv "b", jsv "c"] (by decide) (by decide) (by rfl)

/-- Claim C7, counterexample: with data `{a: null}`, the call
`set('a.b.c', 1)` is *not* a silent no-op — the navigation loop reads
`null['b']` (only `undefined`, not `null`, is checked) and a TypeError
escapes the call.  The data is still unmutated and no events were
emitted, but the claim's "silent" fails. -/
theorem c7_counterexample :
    (obSet (obInit (.obj [("a", .prim .jnull)])) (.str "a.b.c") (some (jnv 1))).thrown
      = true := by
  decide

/-- Claim C7 as amended: whenever `set(p, v)`'s parent walk comes out
`undefined` at some step (a missing intermediate or missing parent), or
reaches a parent that is not an object/array, the call is a silent
atomic no-op: data unchanged, zero events, no throw — and in particular
no intermediate containers are created.  (Amended only to exclude the
walk hitting a `null` value strictly before the parent position, which
throws a TypeError instead of returning silently — see the
counterexample.) -/
theorem c7_set_unresolved_noop (ob : Ob) (p : JPath) (v : JVal)
    (h : walkSegsE ob.data ((obMakePathParts ob p).1).dropLast = .ok none ∨
      (∃ n, walkSegsE ob.data ((obMakePathParts ob p).1).dropLast = .ok (some n) ∧
        isObj n = false)) :
    (obSet ob p (some v)).ob.data = ob.data ∧
    (obSet ob p (some v)).evs = [] ∧
    (obSet ob p (some v)).thrown = false := by
  have hd := obMakePathParts_data ob p
  by_cases hg : p = JPath.str "" ∧ ¬ isObj v
  · have hq : obSet ob p (some v) = ⟨ob, [], false⟩ := by
      unfold obSet
      simp [hg]
    simp [hq]
  · have hq : obSet ob p (some v) = ⟨(obMakePathParts ob p).2, [], false⟩ := by
      unfold obSet
      rcases h with h | ⟨n, h, hn⟩
      · simp [hg, hd, h]
        intro h1 h2
        exact absurd ⟨h1, by simp [h2]⟩ hg
      · simp [hg, hd, h, hn]
        intro h1 h2
        exact absurd ⟨h1, by simp [h2]⟩ hg
    rw [hq]
    exact ⟨hd, rfl, rfl⟩

/-- Claim C7, witness: the amended theorem applied to `set('x.y', 1)` on
an empty observer — the intermediate `'x'` is missing, and the call
leaves everything untouched. -/
theorem c7_set_unresolved_noop_witness :
    (obSet (obInit (.obj [])) (.str "x.y") (some (jnv 1))).ob.data
      = (obInit (.obj [])).data ∧
    (obSet (obInit (.obj [])) (.str "x.y") (some (jnv 1))).evs = [] ∧
    (obSet (obInit (.obj [])) (.str "x.y") (some (jnv 1))).thrown = false :=
  c7_set_unresolved_noop (obInit (.obj [])) (.str "x.y") (jnv 1) (Or.inl (by rfl))

/-- Claim C8, witness: the amended theorem applied at concrete inputs —
a cache already holding `"a" ↦ [a]` returns it unchanged, and a fresh
resolution of `"b"` is returned identically by the immediately following
call. -/
theorem c8_cached_resolution_reused_witness :
    obMakePathParts ⟨.obj [], [(.str "a", [.str "a"])], .mk 0 0 []⟩ (.str "a")
      = ([.str "a"], ⟨.obj [], [(.str "a", [.str "a"])], .mk 0 0 []⟩) ∧
    obMakePathParts (obMakePathParts (obInit (.obj [("b", jnv 1)])) (.str "b")).2 (.str "b")
      = ((obMakePathParts (obInit (.obj [("b", jnv 1)])) (.str "b")).1,
         (obMakePathParts (obInit (.obj [("b", jnv 1)])) (.str "b")).2) :=
  ⟨c8_cached_resolution_reused.1 _ _ _ (by decide),
   c8_cached_resolution_reused.2 _ _⟩

end MrObs
